import Mathlib

/-!
Verification of the URL risk-scoring engine of `Research_Notebooks/url_scanner.py`.

The Python code is shallowly embedded over `List Char`.  Python's standard
library `urllib.parse.urlsplit`/`urlparse` (CPython 3.10-era) is modelled to
the extent the scanner uses it (scheme/netloc/path/params/query/fragment
splitting, the "Invalid IPv6 URL" `ValueError` for unbalanced square brackets
in the authority); the NFKC netloc check, which can only fire on non-ASCII
authorities, is not modelled, so theorems about absence of parse errors
restrict to ASCII input.  `tldextract` and the Keras model are external
libraries: their outputs (`ExtractResult`, the prediction function) are inputs
of the embedded functions.  Fallible Python code (raising `ValueError`)
becomes `Except Unit`.  Python floats are modelled as rationals.
-/

namespace URLScanner

/-- ASCII lowercase of one character (Python `str.lower` restricted to the
ASCII range; the keyword and scheme comparisons below only involve ASCII). -/
def lowerChar (c : Char) : Char :=
  if 'A' ≤ c ∧ c ≤ 'Z' then Char.ofNat (c.toNat + 32) else c

/-- Python `str.lower` on a character list (ASCII range). -/
def lowerStr (l : List Char) : List Char := l.map lowerChar

/-- Python `str.split(sep)` with a one-character separator: `"".split('.')`
yields `[""]`, i.e. the result is never empty. -/
def splitOnChar (c : Char) : List Char → List (List Char)
  | [] => [[]]
  | x :: xs =>
    let r := splitOnChar c xs
    if x = c then [] :: r
    else
      match r with
      | [] => [[x]]
      | y :: ys => (x :: y) :: ys

/-- Python `str.split(c, 1)` keeping only the two parts: everything before the
first occurrence of `c`, and everything after it (the whole string and `[]`
when `c` does not occur — which is how `urlsplit` uses it, guarded by an
`in` test that makes the two behaviours agree). -/
def splitOnce (c : Char) (l : List Char) : List Char × List Char :=
  (l.takeWhile (fun x => !(x == c)), (l.dropWhile (fun x => !(x == c))).tail)

/-- Whether `needle` is a leading segment of `hay`. -/
def leadsList : List Char → List Char → Bool
  | [], _ => true
  | _ :: _, [] => false
  | a :: as, b :: bs => a == b && leadsList as bs

/-- Python's substring test `needle in hay`. -/
def containsSub (needle : List Char) : List Char → Bool
  | [] => leadsList needle []
  | b :: bs => leadsList needle (b :: bs) || containsSub needle bs

/-- ASCII digit test (the regexes in the scanner use explicit `0-9` ranges
and `\d` on ASCII data). -/
def isDigitCh (c : Char) : Bool := '0' ≤ c && c ≤ '9'

/-- ASCII hex-digit test, `[0-9a-fA-F]`. -/
def isHexCh (c : Char) : Bool :=
  isDigitCh c || ('a' ≤ c && c ≤ 'f') || ('A' ≤ c && c ≤ 'F')

/-- The characters CPython's `urllib.parse` allows in a URL scheme. -/
def schemeChars : List Char :=
  "abcdefghijklmnopqrstuvwxyzABCDEFGHIJKLMNOPQRSTUVWXYZ0123456789+-.".data

/-- Result of CPython `urllib.parse.urlsplit`. -/
structure SplitResult where
  scheme : List Char
  netloc : List Char
  path : List Char
  query : List Char
  fragment : List Char
deriving DecidableEq

/-- Result of CPython `urllib.parse.urlparse` (`urlsplit` plus params). -/
structure ParseResult where
  scheme : List Char
  netloc : List Char
  path : List Char
  params : List Char
  query : List Char
  fragment : List Char
deriving DecidableEq

/-- CPython `urlsplit` scheme recognition: a `:` at position `i > 0`, an
ASCII-alphabetic first character, and only scheme characters before the `:`
split off a lowercased scheme; otherwise the URL is left whole. -/
def splitScheme (url : List Char) : List Char × List Char :=
  match url.findIdx? (fun c => c == ':') with
  | none => ([], url)
  | some i =>
    if 0 < i ∧ (url.headD ' ').isAlpha
        ∧ (url.take i).all (fun c => schemeChars.contains c) then
      (lowerStr (url.take i), url.drop (i + 1))
    else ([], url)

/-- CPython `_splitnetloc` on the part following `"//"`: the netloc extends to
the first of `/`, `?`, `#`. -/
def splitNetloc (rest : List Char) : List Char × List Char :=
  (rest.takeWhile (fun c => !(c == '/' || c == '?' || c == '#')),
   rest.dropWhile (fun c => !(c == '/' || c == '?' || c == '#')))

/-- CPython `urlsplit` input sanitation (3.10-era): strip leading
C0-control/space characters, remove tab/CR/LF everywhere. -/
def cleanUrl (urlRaw : List Char) : List Char :=
  (urlRaw.dropWhile (fun c => c.toNat ≤ 32)).filter
    (fun c => !(c == '\t' || c == '\r' || c == '\n'))

/-- The netloc step of `urlsplit`: only a part starting with `"//"` has a
netloc. -/
def netlocSplit (afterScheme : List Char) : List Char × List Char :=
  if afterScheme.take 2 = ['/', '/'] then splitNetloc (afterScheme.drop 2)
  else ([], afterScheme)

/-- The "Invalid IPv6 URL" condition of `urlsplit`: a `[` without `]` or a
`]` without `[` in the netloc. -/
def invalidNetloc (netloc : List Char) : Bool :=
  (netloc.contains '[' && !netloc.contains ']')
    || (netloc.contains ']' && !netloc.contains '[')

/-- CPython `urlsplit` (3.10-era): sanitize, split off scheme, netloc (after
`"//"`), fragment and query.  Raises `ValueError` ("Invalid IPv6 URL") when
the netloc has unbalanced square brackets. -/
def urlsplit (urlRaw : List Char) : Except Unit SplitResult :=
  let sp := splitScheme (cleanUrl urlRaw)
  let nl := netlocSplit sp.2
  if invalidNetloc nl.1 then
    .error ()
  else
    let fr := splitOnce '#' nl.2
    let qu := splitOnce '?' fr.1
    .ok ⟨sp.1, nl.1, qu.1, qu.2, fr.2⟩

/-- The schemes for which CPython `urlparse` splits `;params` off the path. -/
def usesParamsSchemes : List (List Char) :=
  ["", "ftp", "hdl", "prospero", "http", "imap", "https", "shttp", "rtsp",
   "rtspu", "sip", "sips", "mms", "sftp", "tel"].map String.data

/-- CPython `_splitparams`: split `;params` off the last path segment. -/
def splitParams (url : List Char) : List Char × List Char :=
  if url.contains '/' then
    let j := url.length - 1 - ((url.reverse.findIdx? (fun c => c == '/')).getD 0)
    match (url.drop j).findIdx? (fun c => c == ';') with
    | none => (url, [])
    | some k => (url.take (j + k), url.drop (j + k + 1))
  else
    match url.findIdx? (fun c => c == ';') with
    | none => (url, [])
    | some i => (url.take i, url.drop (i + 1))

/-- CPython `urlparse`: `urlsplit`, then split params off the path for the
schemes that use them. -/
def urlparse (url : List Char) : Except Unit ParseResult :=
  match urlsplit url with
  | .error e => .error e
  | .ok r =>
    if usesParamsSchemes.contains r.scheme && r.path.contains ';' then
      let pp := splitParams r.path
      .ok ⟨r.scheme, r.netloc, pp.1, pp.2, r.query, r.fragment⟩
    else
      .ok ⟨r.scheme, r.netloc, r.path, [], r.query, r.fragment⟩

/-! ### Backtracking matchers for the regexes in `URLFeatureExtractor`

A matcher sends an input to the list of all remainders left after consuming a
matching prefix; `re.search` succeeds iff some suffix of the input admits a
nonempty remainder list.  This models the existence semantics of Python's
backtracking `re` engine on these patterns. -/

/-- Match one character satisfying `p`. -/
def matchCharClass (p : Char → Bool) (l : List Char) : List (List Char) :=
  match l with
  | [] => []
  | c :: rest => if p c then [rest] else []

/-- Match the literal character `c`. -/
def matchLit (c : Char) : List Char → List (List Char) :=
  matchCharClass (fun x => x == c)

/-- Regex `?`: zero or one occurrence. -/
def matchOpt (m : List Char → List (List Char)) (l : List Char) :
    List (List Char) :=
  l :: m l

/-- Regex concatenation. -/
def matchSeq (m1 m2 : List Char → List (List Char)) (l : List Char) :
    List (List Char) :=
  (m1 l).flatMap m2

/-- Regex alternation. -/
def matchAlt (m1 m2 : List Char → List (List Char)) (l : List Char) :
    List (List Char) :=
  m1 l ++ m2 l

/-- One decimal octet of the dotted-quad alternative:
`[01]?\d\d?|2[0-4]\d|25[0-5]`. -/
def matchOctet : List Char → List (List Char) :=
  matchAlt
    (matchSeq (matchOpt (matchCharClass (fun c => c == '0' || c == '1')))
      (matchSeq (matchCharClass isDigitCh) (matchOpt (matchCharClass isDigitCh))))
    (matchAlt
      (matchSeq (matchLit '2')
        (matchSeq (matchCharClass (fun c => '0' ≤ c && c ≤ '4'))
          (matchCharClass isDigitCh)))
      (matchSeq (matchLit '2')
        (matchSeq (matchLit '5') (matchCharClass (fun c => '0' ≤ c && c ≤ '5')))))

/-- Matcher for the IPv4 dotted-quad alternative, an octet then a dot three
times over, then a final octet. -/
def matchDotted : List Char → List (List Char) :=
  matchSeq (matchSeq matchOctet (matchLit '.'))
    (matchSeq (matchSeq matchOctet (matchLit '.'))
      (matchSeq (matchSeq matchOctet (matchLit '.')) matchOctet))

/-- Matcher for one hex octet: a literal `0x` then one or two hex digits. -/
def matchHexOctet : List Char → List (List Char) :=
  matchSeq (matchLit '0')
    (matchSeq (matchLit 'x')
      (matchSeq (matchCharClass isHexCh) (matchOpt (matchCharClass isHexCh))))

/-- Matcher for the IPv4 hex-octet alternative: four dot-separated hex
octets. -/
def matchHexQuad : List Char → List (List Char) :=
  matchSeq (matchSeq matchHexOctet (matchLit '.'))
    (matchSeq (matchSeq matchHexOctet (matchLit '.'))
      (matchSeq (matchSeq matchHexOctet (matchLit '.')) matchHexOctet))

/-- Matcher for one IPv6 group: one to four hex digits. -/
def matchH16 : List Char → List (List Char) :=
  matchSeq (matchCharClass isHexCh)
    (matchOpt (matchSeq (matchCharClass isHexCh)
      (matchOpt (matchSeq (matchCharClass isHexCh)
        (matchOpt (matchCharClass isHexCh))))))

/-- Matcher for the full IPv6 colon-hex alternative: a group then a colon
seven times over, then a final group. -/
def matchIPv6 : List Char → List (List Char) :=
  matchSeq (matchSeq matchH16 (matchLit ':'))
    (matchSeq (matchSeq matchH16 (matchLit ':'))
      (matchSeq (matchSeq matchH16 (matchLit ':'))
        (matchSeq (matchSeq matchH16 (matchLit ':'))
          (matchSeq (matchSeq matchH16 (matchLit ':'))
            (matchSeq (matchSeq matchH16 (matchLit ':'))
              (matchSeq (matchSeq matchH16 (matchLit ':')) matchH16))))))

/-- The whole `ip_pattern` regex of `URLFeatureExtractor.has_ip_address`. -/
def matchIpPattern : List Char → List (List Char) :=
  matchAlt matchDotted (matchAlt matchHexQuad matchIPv6)

/-- Python `re.search`: try the matcher at every start position. -/
def searchFrom (m : List Char → List (List Char)) : List Char → Bool
  | [] => !(m []).isEmpty
  | c :: rest => !(m (c :: rest)).isEmpty || searchFrom m rest

/-- Matcher for the digit-run part of the structural analyzer's simpler IP
regex: consume one or more
digits, returning every possible remainder. -/
def matchDigitsPlus : List Char → List (List Char)
  | [] => []
  | c :: rest => if isDigitCh c then rest :: matchDigitsPlus rest else []

/-- Matcher for the structural analyzer's IP heuristic: four dot-separated
runs of digits. -/
def matchSimpleIp : List Char → List (List Char) :=
  matchSeq matchDigitsPlus
    (matchSeq (matchLit '.')
      (matchSeq matchDigitsPlus
        (matchSeq (matchLit '.')
          (matchSeq matchDigitsPlus
            (matchSeq (matchLit '.') matchDigitsPlus)))))

/-! ### Declarative languages of those regexes -/

/-- A language of character strings. -/
def Lang : Type := List Char → Prop

/-- The language of a single character satisfying `p`. -/
def LChar (p : Char → Bool) : Lang := fun w => ∃ c, p c = true ∧ w = [c]

/-- The language of the empty string. -/
def LEps : Lang := fun w => w = []

/-- Union of languages (regex alternation). -/
def LAlt (L1 L2 : Lang) : Lang := fun w => L1 w ∨ L2 w

/-- Concatenation of languages. -/
def LSeq (L1 L2 : Lang) : Lang := fun w => ∃ w1 w2, L1 w1 ∧ L2 w2 ∧ w = w1 ++ w2

/-- Zero-or-one (regex `?`). -/
def LOpt (L : Lang) : Lang := LAlt LEps L

/-- Declarative language of one decimal octet `[01]?\d\d?|2[0-4]\d|25[0-5]`. -/
def LOctet : Lang :=
  LAlt
    (LSeq (LOpt (LChar (fun c => c == '0' || c == '1')))
      (LSeq (LChar isDigitCh) (LOpt (LChar isDigitCh))))
    (LAlt
      (LSeq (LChar (fun x => x == '2'))
        (LSeq (LChar (fun c => '0' ≤ c && c ≤ '4')) (LChar isDigitCh)))
      (LSeq (LChar (fun x => x == '2'))
        (LSeq (LChar (fun x => x == '5')) (LChar (fun c => '0' ≤ c && c ≤ '5')))))

/-- Declarative language of the IPv4 dotted-quad form. -/
def LDotted : Lang :=
  LSeq (LSeq LOctet (LChar (fun x => x == '.')))
    (LSeq (LSeq LOctet (LChar (fun x => x == '.')))
      (LSeq (LSeq LOctet (LChar (fun x => x == '.'))) LOctet))

/-- Declarative language of one hex octet `0x[0-9a-fA-F]{1,2}`. -/
def LHexOctet : Lang :=
  LSeq (LChar (fun x => x == '0'))
    (LSeq (LChar (fun x => x == 'x'))
      (LSeq (LChar isHexCh) (LOpt (LChar isHexCh))))

/-- Declarative language of the IPv4 hex-octet form. -/
def LHexQuad : Lang :=
  LSeq (LSeq LHexOctet (LChar (fun x => x == '.')))
    (LSeq (LSeq LHexOctet (LChar (fun x => x == '.')))
      (LSeq (LSeq LHexOctet (LChar (fun x => x == '.'))) LHexOctet))

/-- Declarative language of one IPv6 group `[a-fA-F0-9]{1,4}`. -/
def LH16 : Lang :=
  LSeq (LChar isHexCh)
    (LOpt (LSeq (LChar isHexCh)
      (LOpt (LSeq (LChar isHexCh) (LOpt (LChar isHexCh))))))

/-- Declarative language of the full IPv6 colon-hex form. -/
def LIPv6 : Lang :=
  LSeq (LSeq LH16 (LChar (fun x => x == ':')))
    (LSeq (LSeq LH16 (LChar (fun x => x == ':')))
      (LSeq (LSeq LH16 (LChar (fun x => x == ':')))
        (LSeq (LSeq LH16 (LChar (fun x => x == ':')))
          (LSeq (LSeq LH16 (LChar (fun x => x == ':')))
            (LSeq (LSeq LH16 (LChar (fun x => x == ':')))
              (LSeq (LSeq LH16 (LChar (fun x => x == ':'))) LH16))))))

/-- Declarative language of the whole `ip_pattern` regex: an IPv4 dotted quad,
an IPv4 hex-octet form, or a full IPv6 colon-hex form. -/
def LIpPattern : Lang := LAlt LDotted (LAlt LHexQuad LIPv6)

/-- A matcher implements a language when its remainders are exactly the
suffixes left after removing a word of the language. -/
def Implements (m : List Char → List (List Char)) (L : Lang) : Prop :=
  ∀ l r, r ∈ m l ↔ ∃ w, L w ∧ l = w ++ r

/-! ### `URLFeatureExtractor` -/

/-- Model of `URLFeatureExtractor.fd_length`: length of `urlparse(url).path.split('/')[1]`,
with the bare `except` returning 0 on any error (both the `IndexError` when
the split has fewer than two parts and the `ValueError` from `urlparse`). -/
def fd_length (url : List Char) : Nat :=
  match urlparse url with
  | .error _ => 0
  | .ok r =>
    match splitOnChar '/' r.path with
    | _ :: second :: _ => second.length
    | _ => 0

/-- Model of `URLFeatureExtractor.count_characteristics`: digits, letters and `/`
occurrences of the raw URL (computed but unused by `extract_features`). -/
def count_characteristics (url : List Char) : Nat × Nat × Nat :=
  ((url.filter isDigitCh).length,
   (url.filter Char.isAlpha).length,
   url.count '/')

/-- Model of `URLFeatureExtractor.has_ip_address`: −1 when `ip_pattern` matches
anywhere in the raw URL string, +1 otherwise. -/
def has_ip_address (url : List Char) : Int :=
  if searchFrom matchIpPattern url then -1 else 1

/-- The five-feature vector fed to the external classifier. -/
structure FeatureVector where
  hostname_length : Nat
  path_length : Nat
  first_dir_length : Nat
  dot_count : Nat
  ip_flag : Int
deriving DecidableEq

/-- Model of `URLFeatureExtractor.extract_features`: the `urlparse` call at the top has
no `try/except` around it, so its `ValueError` propagates. -/
def extract_features (url : List Char) : Except Unit FeatureVector :=
  match urlparse url with
  | .error e => .error e
  | .ok parsed =>
    .ok ⟨parsed.netloc.length, parsed.path.length, fd_length url,
         url.count '.', has_ip_address url⟩

/-! ### `URLSecurityAnalyzer` -/

/-- Output of the external `tldextract.extract` library call (an external
collaborator: the public-suffix split is not re-implemented here, its result
is an input of the structural analyzer). -/
structure ExtractResult where
  subdomain : List Char
  domain : List Char
  suffix : List Char
deriving DecidableEq

/-- One entry of `URLSecurityAnalyzer.risk_factors`. -/
structure FactorConfig where
  weight : ℚ
  threshold : ℚ
deriving DecidableEq

/-- Entry `risk_factors['length']`. -/
def lengthFactor : FactorConfig := ⟨15/100, 75⟩

/-- Entry `risk_factors['special_chars']`. -/
def specialCharsFactor : FactorConfig := ⟨20/100, 10⟩

/-- Entry `risk_factors['subdomain_depth']`. -/
def subdomainDepthFactor : FactorConfig := ⟨15/100, 3⟩

/-- Entry `risk_factors['path_depth']`. -/
def pathDepthFactor : FactorConfig := ⟨10/100, 4⟩

/-- Weight `risk_factors['suspicious_keywords'].weight`. -/
def suspiciousKeywordsWeight : ℚ := 25/100

/-- Weight `risk_factors['tld_risk'].weight`. -/
def tldRiskWeight : ℚ := 15/100

/-- The fixed set `URLSecurityAnalyzer.high_risk_tlds`. -/
def high_risk_tlds : List (List Char) :=
  ["tk", "ml", "ga", "cf", "gq", "xyz", "work", "click", "bid"].map String.data

/-- The fixed list `URLSecurityAnalyzer.suspicious_keywords`. -/
def suspicious_keywords : List (List Char) :=
  ["login", "signin", "verify", "security", "update", "account", "payment",
   "confirm", "password", "banking", "secure", "authenticate"].map String.data

/-- Membership in the character class of the special-characters regex: any
character outside letters, digits, dot, slash and hyphen counts for
`special_chars_count`. -/
def specialCharP (c : Char) : Bool :=
  !(c.isAlpha || isDigitCh c || c == '.' || c == '/' || c == '-')

/-- The record built by `URLSecurityAnalyzer.analyze_url_structure`. -/
structure Analysis where
  url_length : Nat
  special_chars_count : Nat
  subdomain_depth : Nat
  path_depth : Nat
  found_keywords : List (List Char)
  tld : List Char
  uses_https : Bool
  has_ip : Bool
  excessive_dots : Bool
  numeric_domain : Bool
  domain_length : Nat
  path_length : Nat
  query_length : Nat
deriving DecidableEq

/-- Model of `URLSecurityAnalyzer.analyze_url_structure`.  Here `ext` is the output of the
external `tldextract.extract(url)` call; the `urlparse` error, if any,
propagates (no `try/except` in the method). -/
def analyze_url_structure (ext : ExtractResult) (url : List Char) :
    Except Unit Analysis :=
  match urlparse url with
  | .error e => .error e
  | .ok parsed =>
    .ok
      { url_length := url.length
        special_chars_count := (url.filter specialCharP).length
        subdomain_depth := (splitOnChar '.' ext.subdomain).length
        path_depth :=
          ((splitOnChar '/' parsed.path).filter (fun x => !x.isEmpty)).length
        found_keywords :=
          suspicious_keywords.filter (fun kw => containsSub kw (lowerStr url))
        tld := ext.suffix
        uses_https := parsed.scheme == "https".data
        has_ip := searchFrom matchSimpleIp url
        excessive_dots := decide (url.count '.' > 3)
        numeric_domain := ext.domain.any isDigitCh
        domain_length := ext.domain.length
        path_length := parsed.path.length
        query_length := parsed.query.length }

/-- The `risk_scores` mapping of `URLSecurityAnalyzer.calculate_risk_score`. -/
structure RiskScores where
  length : ℚ
  special_chars : ℚ
  subdomain_depth : ℚ
  path_depth : ℚ
  suspicious_keywords : ℚ
  tld_risk : ℚ
deriving DecidableEq

/-- The six normalized factor scores of `calculate_risk_score`. -/
def risk_scores_of (a : Analysis) : RiskScores :=
  { length := min ((a.url_length : ℚ) / lengthFactor.threshold) 1
    special_chars :=
      min ((a.special_chars_count : ℚ) / specialCharsFactor.threshold) 1
    subdomain_depth :=
      min ((a.subdomain_depth : ℚ) / subdomainDepthFactor.threshold) 1
    path_depth := min ((a.path_depth : ℚ) / pathDepthFactor.threshold) 1
    suspicious_keywords := min ((a.found_keywords.length : ℚ) / 3) 1
    tld_risk := if a.tld ∈ high_risk_tlds then 1 else 0 }

/-- Model of `URLSecurityAnalyzer.calculate_risk_score`: the factor scores and their
weighted sum (the dict iteration order is the insertion order used below). -/
def calculate_risk_score (a : Analysis) : ℚ × RiskScores :=
  let rs := risk_scores_of a
  (rs.length * lengthFactor.weight + rs.special_chars * specialCharsFactor.weight
    + rs.subdomain_depth * subdomainDepthFactor.weight
    + rs.path_depth * pathDepthFactor.weight
    + rs.suspicious_keywords * suspiciousKeywordsWeight
    + rs.tld_risk * tldRiskWeight, rs)

/-- Python `', '.join`. -/
def joinComma : List (List Char) → List Char
  | [] => []
  | [x] => x
  | x :: y :: ys => x ++ ", ".data ++ joinComma (y :: ys)

/-- Insight text for an unusually long URL. -/
def msgLongUrl : List Char :=
  "Unusually long URL length which is often associated with phishing attempts".data

/-- Insight text for many special characters. -/
def msgSpecialChars : List Char :=
  "High number of special characters which may be used to obfuscate malicious URLs".data

/-- Insight text for deep subdomain nesting. -/
def msgSubdomains : List Char :=
  "Multiple subdomain levels which could indicate URL manipulation".data

/-- Insight text listing the found suspicious keywords. -/
def msgKeywords (kws : List (List Char)) : List Char :=
  "Contains suspicious keywords: ".data ++ joinComma kws

/-- Insight text naming a high-risk TLD. -/
def msgTld (tld : List Char) : List Char :=
  "Uses a high-risk TLD (".data ++ tld
    ++ ") commonly associated with malicious websites".data

/-- Insight text for an IP-address host. -/
def msgIpAddress : List Char :=
  "Uses an IP address instead of a domain name, which is suspicious for legitimate websites".data

/-- Insight text for HTTPS usage. -/
def msgHttps : List Char :=
  "Uses HTTPS protocol for secure communication".data

/-- Insight text for a normal dot count. -/
def msgNormalDots : List Char :=
  "Normal number of dots in the domain name".data

/-- The four insight buckets of `get_security_insights`. -/
structure Insights where
  high_risk_factors : List (List Char)
  moderate_risk_factors : List (List Char)
  low_risk_factors : List (List Char)
  security_positives : List (List Char)
deriving DecidableEq

/-- Model of `URLSecurityAnalyzer.get_security_insights`.  The `risk_scores` argument
is accepted but never read, exactly as in the source; appends happen in
source order within each bucket. -/
def get_security_insights (a : Analysis) (_rs : RiskScores) : Insights :=
  { high_risk_factors :=
      (if a.url_length > 75 then [msgLongUrl] else [])
        ++ (if a.special_chars_count > 10 then [msgSpecialChars] else [])
        ++ (if a.tld ∈ high_risk_tlds then [msgTld a.tld] else [])
        ++ (if a.has_ip then [msgIpAddress] else [])
    moderate_risk_factors :=
      (if a.subdomain_depth > 3 then [msgSubdomains] else [])
        ++ (if !a.found_keywords.isEmpty then [msgKeywords a.found_keywords]
            else [])
    low_risk_factors := []
    security_positives :=
      (if a.uses_https then [msgHttps] else [])
        ++ (if !a.excessive_dots then [msgNormalDots] else []) }

/-- The `RiskAssessment` surfaced by `display_security_analysis`: composite
score, factor scores, insight buckets. -/
structure Assessment where
  composite : ℚ
  scores : RiskScores
  insights : Insights
deriving DecidableEq

/-- The analysis pipeline of `URLScannerApp.display_security_analysis`:
structural analysis, then risk scoring, then insight generation. -/
def display_security_analysis (ext : ExtractResult) (url : List Char) :
    Except Unit Assessment :=
  match analyze_url_structure ext url with
  | .error e => .error e
  | .ok a =>
    let sc := calculate_risk_score a
    .ok ⟨sc.1, sc.2, get_security_insights a sc.2⟩

/-! ### `URLDatabase` and the scanner page flow -/

/-- One row of the `url_scans` table (the `id` primary key is carried
separately as the association key). -/
structure ScanRow where
  url : List Char
  timestamp : Nat
  pred : ℚ
  is_malicious : Bool
deriving DecidableEq

/-- The `url_scans` table: association list from primary key (`md5`
hex digest of the URL, an external library function passed in as `hash`)
to row. -/
abbrev ScanDb : Type := List (List Char × ScanRow)

/-- Model of `URLDatabase.add_scan`: `INSERT OR REPLACE` keyed by `md5(url)` — any
existing row with the same key is replaced; `is_malicious = prediction >= 0.5`;
`timestamp` is the external `datetime.now()` value, passed in. -/
def add_scan (hash : List Char → List Char) (db : ScanDb) (url : List Char)
    (p : ℚ) (t : Nat) : ScanDb :=
  db.filter (fun e => !(e.1 == hash url))
    ++ [(hash url, ⟨url, t, p, decide (p ≥ 1/2)⟩)]

/-- A sequence of `add_scan` calls starting from an empty table; each scan is
a `(url, prediction, timestamp)` triple. -/
def runScans (hash : List Char → List Char)
    (scans : List (List Char × ℚ × Nat)) : ScanDb :=
  scans.foldl (fun db s => add_scan hash db s.1 s.2.1 s.2.2) []

/-- What the scanner page ends up showing for one analysis request. -/
inductive PageOutcome where
  | analysisShown : ℚ → Assessment → PageOutcome
  | invalidUrlError : PageOutcome
  | predictionError : PageOutcome
deriving DecidableEq

/-- Whether an outcome carries the heuristic analysis. -/
def outcomeHasAnalysis : PageOutcome → Bool
  | .analysisShown _ _ => true
  | _ => false

/-- Model of `URLScannerApp.predict_url`: with no model, an error is shown and
`(None, None)` returned; otherwise features are extracted, the model applied
and the scan logged — the bare `except` turns any feature-extraction failure
into `(None, None)` without touching the database.  The loaded model is the
external Keras network, abstracted as a function `FeatureVector → ℚ`. -/
def predict_url (hash : List Char → List Char)
    (model : Option (FeatureVector → ℚ)) (db : ScanDb) (url : List Char)
    (t : Nat) : Option (ℚ × FeatureVector) × ScanDb :=
  match model with
  | none => (none, db)
  | some m =>
    match extract_features url with
    | .error _ => (none, db)
    | .ok f => (some (m f, f), add_scan hash db url (m f) t)

/-- Model of `URLScannerApp.show_url_scanner_page` after the button press: the analysis
only runs when `self.model is not None and validators.url(url)` (the
`validators.url` result is the external `urlValid` input); otherwise the page
shows "Please enter a valid URL".  A `urlparse` failure inside
`display_security_analysis` would propagate (`.error`). -/
def show_url_scanner_page (hash : List Char → List Char)
    (model : Option (FeatureVector → ℚ)) (urlValid : Bool)
    (ext : ExtractResult) (url : List Char) (db : ScanDb) (t : Nat) :
    Except Unit (PageOutcome × ScanDb) :=
  if model.isSome && urlValid then
    match predict_url hash model db url t with
    | (some (p, _), db2) =>
      match display_security_analysis ext url with
      | .error e => .error e
      | .ok asm => .ok (.analysisShown p asm, db2)
    | (none, db2) => .ok (.predictionError, db2)
  else
    .ok (.invalidUrlError, db)

/-! ### Spec-side definitions used by refinement claims -/

/-- The composite-score formula exactly as the specification states it:
`0.15*min(url_length/75,1) + 0.20*min(special_char_count/10,1) +
0.15*min(subdomain_depth/3,1) + 0.10*min(path_depth/4,1) +
0.25*min(len(found_keywords)/3,1) + 0.15*(1 if tld in high-risk set else 0)`,
with the high-risk TLD set written out literally. -/
def specComposite (a : Analysis) : ℚ :=
  15/100 * min ((a.url_length : ℚ) / 75) 1
    + 20/100 * min ((a.special_chars_count : ℚ) / 10) 1
    + 15/100 * min ((a.subdomain_depth : ℚ) / 3) 1
    + 10/100 * min ((a.path_depth : ℚ) / 4) 1
    + 25/100 * min ((a.found_keywords.length : ℚ) / 3) 1
    + 15/100 * (if a.tld ∈ (["tk", "ml", "ga", "cf", "gq", "xyz", "work",
        "click", "bid"].map String.data) then 1 else 0)

/-- Whether a host string is, in its entirety, one of the three IP-literal
forms of the claim (the matcher consumes the whole host). -/
def hostIsIpLiteral (host : List Char) : Bool :=
  (matchIpPattern host).contains []

/-- Well-formedness of the history store: primary keys are distinct, every
key is the hash of its row's URL, and every row's `is_malicious` flag agrees
with `prediction >= 0.5`. -/
def DbWf (hash : List Char → List Char) (db : ScanDb) : Prop :=
  (db.map Prod.fst).Nodup
  ∧ ∀ e ∈ db, e.1 = hash e.2.url ∧ e.2.is_malicious = decide (e.2.pred ≥ 1/2)

/-! ### Basic lemmas -/

theorem splitOnChar_ne_nil (c : Char) (l : List Char) : splitOnChar c l ≠ [] := by
  cases l with
  | nil => simp [splitOnChar]
  | cons x xs =>
    simp only [splitOnChar]
    by_cases h : x = c
    · simp [h]
    · simp only [h, if_false]
      cases splitOnChar c xs with
      | nil => simp
      | cons y ys => simp

theorem splitOnChar_length_pos (c : Char) (l : List Char) :
    1 ≤ (splitOnChar c l).length :=
  List.length_pos.mpr (splitOnChar_ne_nil c l)

theorem min_div_nonneg (x : Nat) (c : ℚ) (hc : 0 < c) :
    0 ≤ min ((x : ℚ) / c) 1 :=
  le_min (div_nonneg (Nat.cast_nonneg x) hc.le) zero_le_one

theorem composite_eq (a : Analysis) :
    (calculate_risk_score a).1 =
      (risk_scores_of a).length * (15/100)
        + (risk_scores_of a).special_chars * (20/100)
        + (risk_scores_of a).subdomain_depth * (15/100)
        + (risk_scores_of a).path_depth * (10/100)
        + (risk_scores_of a).suspicious_keywords * (25/100)
        + (risk_scores_of a).tld_risk * (15/100) := rfl

theorem risk_scores_bounds (a : Analysis) :
    (0 ≤ (risk_scores_of a).length ∧ (risk_scores_of a).length ≤ 1)
    ∧ (0 ≤ (risk_scores_of a).special_chars ∧ (risk_scores_of a).special_chars ≤ 1)
    ∧ (0 ≤ (risk_scores_of a).subdomain_depth ∧ (risk_scores_of a).subdomain_depth ≤ 1)
    ∧ (0 ≤ (risk_scores_of a).path_depth ∧ (risk_scores_of a).path_depth ≤ 1)
    ∧ (0 ≤ (risk_scores_of a).suspicious_keywords ∧ (risk_scores_of a).suspicious_keywords ≤ 1)
    ∧ (0 ≤ (risk_scores_of a).tld_risk ∧ (risk_scores_of a).tld_risk ≤ 1) := by
  simp only [risk_scores_of, lengthFactor, specialCharsFactor,
    subdomainDepthFactor, pathDepthFactor]
  refine ⟨⟨min_div_nonneg _ _ (by norm_num), min_le_right _ _⟩,
    ⟨min_div_nonneg _ _ (by norm_num), min_le_right _ _⟩,
    ⟨min_div_nonneg _ _ (by norm_num), min_le_right _ _⟩,
    ⟨min_div_nonneg _ _ (by norm_num), min_le_right _ _⟩,
    ⟨min_div_nonneg _ _ (by norm_num), min_le_right _ _⟩, ?_⟩
  split <;> norm_num

theorem composite_bounds (a : Analysis) :
    0 ≤ (calculate_risk_score a).1 ∧ (calculate_risk_score a).1 ≤ 1 := by
  obtain ⟨⟨h10, h11⟩, ⟨h20, h21⟩, ⟨h30, h31⟩, ⟨h40, h41⟩, ⟨h50, h51⟩, h60, h61⟩ :=
    risk_scores_bounds a
  rw [composite_eq]
  constructor <;> nlinarith

theorem analyze_ok_inv (ext : ExtractResult) (url : List Char) (a : Analysis)
    (h : analyze_url_structure ext url = .ok a) :
    a.subdomain_depth = (splitOnChar '.' ext.subdomain).length := by
  unfold analyze_url_structure at h
  cases hp : urlparse url with
  | error e => rw [hp] at h; exact absurd h (by simp)
  | ok r =>
    rw [hp] at h
    cases h
    rfl

/-! ### Claim theorems: scoring -/

/-- Claim C1: for every URL string, `calculate_risk_score` returns a composite
score in `[0,1]` and every entry of the per-factor risk-score mapping
(`length`, `special_chars`, `subdomain_depth`, `path_depth`,
`suspicious_keywords`, `tld_risk`) lies in `[0,1]`. -/
theorem calculate_risk_score_bounded (ext : ExtractResult) (url : List Char)
    (a : Analysis) (_h : analyze_url_structure ext url = .ok a) :
    (0 ≤ (calculate_risk_score a).1 ∧ (calculate_risk_score a).1 ≤ 1)
    ∧ (0 ≤ (calculate_risk_score a).2.length ∧ (calculate_risk_score a).2.length ≤ 1)
    ∧ (0 ≤ (calculate_risk_score a).2.special_chars ∧ (calculate_risk_score a).2.special_chars ≤ 1)
    ∧ (0 ≤ (calculate_risk_score a).2.subdomain_depth ∧ (calculate_risk_score a).2.subdomain_depth ≤ 1)
    ∧ (0 ≤ (calculate_risk_score a).2.path_depth ∧ (calculate_risk_score a).2.path_depth ≤ 1)
    ∧ (0 ≤ (calculate_risk_score a).2.suspicious_keywords ∧ (calculate_risk_score a).2.suspicious_keywords ≤ 1)
    ∧ (0 ≤ (calculate_risk_score a).2.tld_risk ∧ (calculate_risk_score a).2.tld_risk ≤ 1) :=
  ⟨composite_bounds a, risk_scores_bounds a⟩

theorem calculate_risk_score_bounded_witness :
    analyze_url_structure ⟨[], "a".data, "com".data⟩ "http://a.com".data
      = .ok ⟨12, 1, 1, 0, [], "com".data, false, false, false, false, 1, 0, 0⟩
    ∧ (0 ≤ (calculate_risk_score
        ⟨12, 1, 1, 0, [], "com".data, false, false, false, false, 1, 0, 0⟩).1
      ∧ (calculate_risk_score
        ⟨12, 1, 1, 0, [], "com".data, false, false, false, false, 1, 0, 0⟩).1 ≤ 1) :=
  ⟨rfl,
   (calculate_risk_score_bounded ⟨[], "a".data, "com".data⟩ "http://a.com".data
     ⟨12, 1, 1, 0, [], "com".data, false, false, false, false, 1, 0, 0⟩
     rfl).1⟩

/-- Claim C2: on every structural analysis record, `calculate_risk_score`
computes exactly the fixed weighted table of the specification (weights
0.15/0.20/0.15/0.10/0.25/0.15, thresholds 75/10/3/4/3, the literal nine-TLD
high-risk set), with no other terms. -/
theorem calculate_risk_score_matches_spec (a : Analysis) :
    (calculate_risk_score a).1 = specComposite a := by
  rw [composite_eq]
  simp only [risk_scores_of, lengthFactor, specialCharsFactor,
    subdomainDepthFactor, pathDepthFactor, specComposite, high_risk_tlds]
  ring

/-- Claim C7: for every URL whose extracted subdomain part is the empty
string, the structural analysis reports `subdomain_depth = 1` (the empty
string split on `'.'` yields one empty label). -/
theorem subdomain_depth_of_empty_subdomain (ext : ExtractResult)
    (url : List Char) (a : Analysis) (hsub : ext.subdomain = [])
    (h : analyze_url_structure ext url = .ok a) : a.subdomain_depth = 1 := by
  rw [analyze_ok_inv ext url a h, hsub]
  rfl

theorem subdomain_depth_of_empty_subdomain_witness :
    (⟨[], "a".data, "com".data⟩ : ExtractResult).subdomain = []
    ∧ analyze_url_structure ⟨[], "a".data, "com".data⟩ "http://a.com".data
      = .ok ⟨12, 1, 1, 0, [], "com".data, false, false, false, false, 1, 0, 0⟩
    ∧ (⟨12, 1, 1, 0, [], "com".data, false, false, false, false, 1, 0,
        0⟩ : Analysis).subdomain_depth = 1 :=
  ⟨rfl, rfl,
   subdomain_depth_of_empty_subdomain ⟨[], "a".data, "com".data⟩
     "http://a.com".data
     ⟨12, 1, 1, 0, [], "com".data, false, false, false, false, 1, 0, 0⟩
     rfl rfl⟩

/-- Claim C8: assessment is deterministic — structural analysis, risk scoring
and insight generation run twice on the same URL (no state change) produce
identical results. -/
theorem assessment_deterministic (ext : ExtractResult) (url : List Char)
    (a1 a2 : Analysis) (h1 : analyze_url_structure ext url = .ok a1)
    (h2 : analyze_url_structure ext url = .ok a2) :
    a1 = a2
    ∧ calculate_risk_score a1 = calculate_risk_score a2
    ∧ get_security_insights a1 (calculate_risk_score a1).2
      = get_security_insights a2 (calculate_risk_score a2).2
    ∧ display_security_analysis ext url = display_security_analysis ext url := by
  rw [h1] at h2
  cases h2
  exact ⟨rfl, rfl, rfl, rfl⟩

theorem assessment_deterministic_witness :
    analyze_url_structure ⟨[], "a".data, "com".data⟩ "http://a.com".data
      = .ok ⟨12, 1, 1, 0, [], "com".data, false, false, false, false, 1, 0, 0⟩
    ∧ display_security_analysis ⟨[], "a".data, "com".data⟩ "http://a.com".data
      = display_security_analysis ⟨[], "a".data, "com".data⟩ "http://a.com".data :=
  ⟨rfl,
   (assessment_deterministic ⟨[], "a".data, "com".data⟩ "http://a.com".data
     ⟨12, 1, 1, 0, [], "com".data, false, false, false, false, 1, 0, 0⟩
     ⟨12, 1, 1, 0, [], "com".data, false, false, false, false, 1, 0, 0⟩
     rfl rfl).2.2.2⟩

/-- Claim C10: for every URL, the structural analysis's `subdomain_depth` is
at least 1, so the subdomain factor score is at least 1/3 and the composite
score is at least 0.15·(1/3) = 0.05: no URL receives a composite score of
zero. -/
theorem composite_score_never_zero (ext : ExtractResult) (url : List Char)
    (a : Analysis) (h : analyze_url_structure ext url = .ok a) :
    1 ≤ a.subdomain_depth
    ∧ 1/3 ≤ (calculate_risk_score a).2.subdomain_depth
    ∧ 1/20 ≤ (calculate_risk_score a).1
    ∧ (calculate_risk_score a).1 ≠ 0 := by
  have hdepth : 1 ≤ a.subdomain_depth := by
    rw [analyze_ok_inv ext url a h]
    exact splitOnChar_length_pos '.' ext.subdomain
  have hcast : (1 : ℚ) ≤ (a.subdomain_depth : ℚ) := by exact_mod_cast hdepth
  have hsub : 1/3 ≤ (risk_scores_of a).subdomain_depth := by
    simp only [risk_scores_of, subdomainDepthFactor]
    refine le_min (by linarith) (by norm_num)
  obtain ⟨⟨h10, h11⟩, ⟨h20, h21⟩, ⟨h30, h31⟩, ⟨h40, h41⟩, ⟨h50, h51⟩, h60, h61⟩ :=
    risk_scores_bounds a
  have hcomp : 1/20 ≤ (calculate_risk_score a).1 := by
    rw [composite_eq]
    nlinarith
  exact ⟨hdepth, hsub, hcomp, by intro h0; rw [h0] at hcomp; norm_num at hcomp⟩

theorem composite_score_never_zero_witness :
    analyze_url_structure ⟨[], "a".data, "com".data⟩ "http://a.com".data
      = .ok ⟨12, 1, 1, 0, [], "com".data, false, false, false, false, 1, 0, 0⟩
    ∧ (calculate_risk_score
        ⟨12, 1, 1, 0, [], "com".data, false, false, false, false, 1, 0, 0⟩).1 ≠ 0 :=
  ⟨rfl,
   (composite_score_never_zero ⟨[], "a".data, "com".data⟩ "http://a.com".data
     ⟨12, 1, 1, 0, [], "com".data, false, false, false, false, 1, 0, 0⟩
     rfl).2.2.2⟩

/-! ### Matcher correctness -/

theorem implements_charClass (p : Char → Bool) :
    Implements (matchCharClass p) (LChar p) := by
  intro l r
  constructor
  · intro hr
    cases l with
    | nil => simp [matchCharClass] at hr
    | cons c rest =>
      by_cases h : p c = true
      · simp only [matchCharClass, h, if_true, List.mem_singleton] at hr
        subst hr
        exact ⟨[c], ⟨c, h, rfl⟩, rfl⟩
      · simp [matchCharClass, h] at hr
  · rintro ⟨w, ⟨c, hc, rfl⟩, rfl⟩
    simp [matchCharClass, hc]

theorem implements_lit (c : Char) :
    Implements (matchLit c) (LChar (fun x => x == c)) :=
  implements_charClass _

theorem implements_opt {m : List Char → List (List Char)} {L : Lang}
    (h : Implements m L) : Implements (matchOpt m) (LOpt L) := by
  intro l r
  simp only [matchOpt, List.mem_cons, LOpt, LAlt, LEps]
  constructor
  · rintro (rfl | hm)
    · exact ⟨[], Or.inl rfl, rfl⟩
    · obtain ⟨w, hw, rfl⟩ := (h l r).1 hm
      exact ⟨w, Or.inr hw, rfl⟩
  · rintro ⟨w, (rfl | hw), rfl⟩
    · exact Or.inl rfl
    · exact Or.inr ((h _ _).2 ⟨w, hw, rfl⟩)

theorem implements_seq {m1 m2 : List Char → List (List Char)} {L1 L2 : Lang}
    (h1 : Implements m1 L1) (h2 : Implements m2 L2) :
    Implements (matchSeq m1 m2) (LSeq L1 L2) := by
  intro l r
  simp only [matchSeq, List.mem_flatMap, LSeq]
  constructor
  · rintro ⟨mid, hmid, hr⟩
    obtain ⟨w1, hw1, rfl⟩ := (h1 l mid).1 hmid
    obtain ⟨w2, hw2, rfl⟩ := (h2 mid r).1 hr
    exact ⟨w1 ++ w2, ⟨w1, w2, hw1, hw2, rfl⟩, by rw [List.append_assoc]⟩
  · rintro ⟨w, ⟨w1, w2, hw1, hw2, rfl⟩, rfl⟩
    exact ⟨w2 ++ r, (h1 _ _).2 ⟨w1, hw1, by rw [List.append_assoc]⟩,
      (h2 _ _).2 ⟨w2, hw2, rfl⟩⟩

theorem implements_alt {m1 m2 : List Char → List (List Char)} {L1 L2 : Lang}
    (h1 : Implements m1 L1) (h2 : Implements m2 L2) :
    Implements (matchAlt m1 m2) (LAlt L1 L2) := by
  intro l r
  simp only [matchAlt, List.mem_append, LAlt]
  constructor
  · rintro (h | h)
    · obtain ⟨w, hw, rfl⟩ := (h1 l r).1 h
      exact ⟨w, Or.inl hw, rfl⟩
    · obtain ⟨w, hw, rfl⟩ := (h2 l r).1 h
      exact ⟨w, Or.inr hw, rfl⟩
  · rintro ⟨w, (hw | hw), rfl⟩
    · exact Or.inl ((h1 _ _).2 ⟨w, hw, rfl⟩)
    · exact Or.inr ((h2 _ _).2 ⟨w, hw, rfl⟩)

theorem implements_octet : Implements matchOctet LOctet :=
  implements_alt
    (implements_seq (implements_opt (implements_charClass _))
      (implements_seq (implements_charClass _)
        (implements_opt (implements_charClass _))))
    (implements_alt
      (implements_seq (implements_lit _)
        (implements_seq (implements_charClass _) (implements_charClass _)))
      (implements_seq (implements_lit _)
        (implements_seq (implements_lit _) (implements_charClass _))))

theorem implements_dotted : Implements matchDotted LDotted :=
  implements_seq (implements_seq implements_octet (implements_lit _))
    (implements_seq (implements_seq implements_octet (implements_lit _))
      (implements_seq (implements_seq implements_octet (implements_lit _))
        implements_octet))

theorem implements_hexOctet : Implements matchHexOctet LHexOctet :=
  implements_seq (implements_lit _)
    (implements_seq (implements_lit _)
      (implements_seq (implements_charClass _)
        (implements_opt (implements_charClass _))))

theorem implements_hexQuad : Implements matchHexQuad LHexQuad :=
  implements_seq (implements_seq implements_hexOctet (implements_lit _))
    (implements_seq (implements_seq implements_hexOctet (implements_lit _))
      (implements_seq (implements_seq implements_hexOctet (implements_lit _))
        implements_hexOctet))

theorem implements_h16 : Implements matchH16 LH16 :=
  implements_seq (implements_charClass _)
    (implements_opt (implements_seq (implements_charClass _)
      (implements_opt (implements_seq (implements_charClass _)
        (implements_opt (implements_charClass _))))))

theorem implements_ipv6 : Implements matchIPv6 LIPv6 :=
  implements_seq (implements_seq implements_h16 (implements_lit _))
    (implements_seq (implements_seq implements_h16 (implements_lit _))
      (implements_seq (implements_seq implements_h16 (implements_lit _))
        (implements_seq (implements_seq implements_h16 (implements_lit _))
          (implements_seq (implements_seq implements_h16 (implements_lit _))
            (implements_seq (implements_seq implements_h16 (implements_lit _))
              (implements_seq (implements_seq implements_h16 (implements_lit _))
                implements_h16))))))

theorem implements_ipPattern : Implements matchIpPattern LIpPattern :=
  implements_alt implements_dotted (implements_alt implements_hexQuad implements_ipv6)

theorem bnot_isEmpty_eq_true (l : List (List Char)) :
    ((!l.isEmpty) = true) ↔ l ≠ [] := by
  cases l <;> simp

theorem searchFrom_eq_true_iff {m : List Char → List (List Char)} {L : Lang}
    (h : Implements m L) (l : List Char) :
    searchFrom m l = true ↔ ∃ pre w post, l = pre ++ w ++ post ∧ L w := by
  induction l with
  | nil =>
    simp only [searchFrom, bnot_isEmpty_eq_true]
    constructor
    · intro hne
      obtain ⟨r, hr⟩ := List.exists_mem_of_ne_nil _ hne
      obtain ⟨w, hw, heq⟩ := (h [] r).1 hr
      obtain ⟨hw1, hw2⟩ := List.append_eq_nil.1 heq.symm
      exact ⟨[], [], [], rfl, hw1 ▸ hw⟩
    · rintro ⟨pre, w, post, heq, hw⟩
      obtain ⟨h1, h2⟩ := List.append_eq_nil.1 heq.symm
      obtain ⟨h11, h12⟩ := List.append_eq_nil.1 h1
      intro h0
      have hin : [] ∈ m [] := (h [] []).2 ⟨w, hw, by rw [h12]; rfl⟩
      rw [h0] at hin
      exact List.not_mem_nil _ hin
  | cons c rest ih =>
    simp only [searchFrom, Bool.or_eq_true, bnot_isEmpty_eq_true, ih]
    constructor
    · rintro (hne | ⟨pre, w, post, heq, hw⟩)
      · obtain ⟨r, hr⟩ := List.exists_mem_of_ne_nil _ hne
        obtain ⟨w, hw, heq⟩ := (h (c :: rest) r).1 hr
        exact ⟨[], w, r, by rw [heq]; rfl, hw⟩
      · exact ⟨c :: pre, w, post, by rw [heq]; rfl, hw⟩
    · rintro ⟨pre, w, post, heq, hw⟩
      cases pre with
      | nil =>
        left
        intro h0
        have hin : post ∈ m (c :: rest) := (h _ _).2 ⟨w, hw, by rw [heq]; rfl⟩
        rw [h0] at hin
        exact List.not_mem_nil _ hin
      | cons p ps =>
        right
        simp only [List.cons_append] at heq
        injection heq with h1 h2
        exact ⟨ps, w, post, h2, hw⟩

/-! ### Claim theorems: IP detection -/

/-- Claim C4 counterexample: for `http://192.168.1.1`-free URL
`http://example.com/1.2.3.4` the host component is `example.com`, which is
none of the three IP-literal forms, yet `has_ip_address` returns −1 because
the regex is searched over the whole URL string and matches `1.2.3.4` in the
path. -/
theorem has_ip_address_not_host_based :
    has_ip_address "http://example.com/1.2.3.4".data = -1
    ∧ (urlparse "http://example.com/1.2.3.4".data).map ParseResult.netloc
      = .ok "example.com".data
    ∧ hostIsIpLiteral "example.com".data = false :=
  ⟨rfl, rfl, rfl⟩

/-- Claim C4 (amended): `has_ip_address` returns −1 if and only if some
substring of the whole URL string (not specifically the host component) is an
IPv4 dotted quad, an IPv4 hex-octet form, or a full IPv6 colon-hex form
(`LIpPattern`); otherwise it returns +1. -/
theorem has_ip_address_iff_substring_match (url : List Char) :
    has_ip_address url = -1
      ↔ ∃ pre w post, url = pre ++ w ++ post ∧ LIpPattern w := by
  rw [← searchFrom_eq_true_iff implements_ipPattern url]
  unfold has_ip_address
  constructor
  · intro h
    by_contra hb
    rw [Bool.not_eq_true] at hb
    rw [hb] at h
    norm_num at h
  · intro h
    rw [h]
    rfl

/-- Claim C6: for the input URL `http://192.168.1.1/login` (for which the
external `tldextract` returns subdomain `""`, domain `"192.168.1.1"`, suffix
`""`): the feature extractor yields `ip_literal_flag = −1`, the structural
analysis has `has_ip_address = true` and `found_keywords = ["login"]`, and the
insight generator emits the high-risk IP-address insight and the moderate-risk
insight listing the keyword `login`. -/
theorem ip_login_url_example :
    has_ip_address "http://192.168.1.1/login".data = -1
    ∧ (extract_features "http://192.168.1.1/login".data).map FeatureVector.ip_flag
      = .ok (-1)
    ∧ (analyze_url_structure ⟨[], "192.168.1.1".data, []⟩
        "http://192.168.1.1/login".data).map Analysis.has_ip = .ok true
    ∧ (analyze_url_structure ⟨[], "192.168.1.1".data, []⟩
        "http://192.168.1.1/login".data).map Analysis.found_keywords
      = .ok ["login".data]
    ∧ (display_security_analysis ⟨[], "192.168.1.1".data, []⟩
        "http://192.168.1.1/login".data).map
        (fun asm => (decide (msgIpAddress ∈ asm.insights.high_risk_factors),
          decide (msgKeywords ["login".data] ∈ asm.insights.moderate_risk_factors)))
      = .ok (true, true) :=
  ⟨rfl, rfl, rfl, rfl, rfl⟩

/-! ### Parse-failure analysis -/

theorem cleanUrl_sublist (u : List Char) : (cleanUrl u).Sublist u :=
  (List.filter_sublist _).trans (List.dropWhile_sublist _)

theorem splitScheme_snd_sublist (u : List Char) : (splitScheme u).2.Sublist u := by
  unfold splitScheme
  cases h : u.findIdx? (fun c => c == ':') with
  | none => exact List.Sublist.refl u
  | some i =>
    dsimp only
    split
    · exact List.drop_sublist _ _
    · exact List.Sublist.refl u

theorem netlocSplit_fst_sublist (l : List Char) :
    (netlocSplit l).1.Sublist l := by
  unfold netlocSplit splitNetloc
  split
  · exact (List.takeWhile_sublist _).trans (List.drop_sublist _ _)
  · exact List.nil_sublist l

theorem urlsplit_netloc_sublist (u : List Char) :
    (netlocSplit (splitScheme (cleanUrl u)).2).1.Sublist u :=
  (netlocSplit_fst_sublist _).trans
    ((splitScheme_snd_sublist _).trans (cleanUrl_sublist u))

theorem contains_eq_false_of_not_mem {c : Char} {l : List Char} (h : c ∉ l) :
    l.contains c = false := by
  rw [← Bool.not_eq_true]
  intro hc
  exact h (List.elem_iff.1 hc)

theorem urlsplit_ok_of_no_brackets (url : List Char)
    (h1 : '[' ∉ url) (h2 : ']' ∉ url) : ∃ r, urlsplit url = .ok r := by
  have hnl := urlsplit_netloc_sublist url
  have hb1 : '[' ∉ (netlocSplit (splitScheme (cleanUrl url)).2).1 :=
    fun hm => h1 (hnl.mem hm)
  have hb2 : ']' ∉ (netlocSplit (splitScheme (cleanUrl url)).2).1 :=
    fun hm => h2 (hnl.mem hm)
  have hc : invalidNetloc (netlocSplit (splitScheme (cleanUrl url)).2).1 = false := by
    unfold invalidNetloc
    rw [contains_eq_false_of_not_mem hb1, contains_eq_false_of_not_mem hb2]
    rfl
  simp only [urlsplit, hc]
  exact ⟨_, rfl⟩

theorem urlparse_ok_of_no_brackets (url : List Char)
    (h1 : '[' ∉ url) (h2 : ']' ∉ url) : ∃ r, urlparse url = .ok r := by
  obtain ⟨r, hr⟩ := urlsplit_ok_of_no_brackets url h1 h2
  unfold urlparse
  rw [hr]
  dsimp only
  split
  · exact ⟨_, rfl⟩
  · exact ⟨_, rfl⟩

theorem extract_features_ok_of_no_brackets (url : List Char)
    (h1 : '[' ∉ url) (h2 : ']' ∉ url) : ∃ v, extract_features url = .ok v := by
  obtain ⟨r, hr⟩ := urlparse_ok_of_no_brackets url h1 h2
  unfold extract_features
  rw [hr]
  exact ⟨_, rfl⟩

/-! ### Claim theorems: parse degradation and model unavailability -/

/-- Claim C3 counterexample: the URL `ht!tp://a.b` has a malformed scheme (so
its host cannot be parsed; the netloc is empty), yet `extract_features`
returns `(0, 11, 0, 1, 1)` — path length and dot count reflect the raw
string — not the all-default vector `(0, 0, 0, 0, 1)`; and on
`http://[a` (unbalanced bracket in the authority) `extract_features`
propagates the `urlparse` `ValueError` instead of returning a vector. -/
theorem extract_features_not_default_cex :
    extract_features "ht!tp://a.b".data = .ok ⟨0, 11, 0, 1, 1⟩
    ∧ ((⟨0, 11, 0, 1, 1⟩ : FeatureVector) = ⟨0, 0, 0, 0, 1⟩ → False)
    ∧ extract_features "http://[a".data = .error () :=
  ⟨rfl, by decide, rfl⟩

/-- Claim C3 (amended): for every ASCII URL string containing neither `[` nor
`]`, `extract_features` returns a feature vector without raising (the ASCII
restriction reflects CPython's unmodelled NFKC netloc check, which can only
fire on non-ASCII authorities); a URL with unbalanced square brackets in its
authority does raise; and for a malformed-scheme URL the result is not the
all-default vector: only `hostname_length` and `first_directory_length`
default to 0, while `path_length` and `dot_count` reflect the raw string
(`ht!tp://a.b ↦ (0, 11, 0, 1, 1)`). -/
theorem extract_features_parse_degradation :
    (∀ url : List Char, (∀ c ∈ url, c.toNat < 128) → '[' ∉ url → ']' ∉ url →
      ∃ v, extract_features url = .ok v)
    ∧ extract_features "ht!tp://a.b".data = .ok ⟨0, 11, 0, 1, 1⟩
    ∧ extract_features "http://[a".data = .error () :=
  ⟨fun url _ h1 h2 => extract_features_ok_of_no_brackets url h1 h2, rfl, rfl⟩

theorem extract_features_parse_degradation_witness :
    ∃ v, extract_features "http://a.com".data = .ok v :=
  extract_features_parse_degradation.1 "http://a.com".data
    (by decide) (by decide) (by decide)

/-- Claim C5 counterexample: with the model unavailable (`None`) and a valid
URL, the scan request does not produce the heuristic composite score and
structural analysis — the page takes the `else` branch of
`if self.model is not None and validators.url(url)` and shows the
"Please enter a valid URL" error, with no analysis at all. -/
theorem model_unavailable_cex :
    show_url_scanner_page (fun u => u) none true ⟨[], "a".data, "com".data⟩
      "http://a.com".data [] 0 = .ok (.invalidUrlError, [])
    ∧ outcomeHasAnalysis .invalidUrlError = false :=
  ⟨rfl, rfl⟩

/-- Claim C5 (amended): when the external classifier model cannot be loaded
(`model = None`), the scan flow does not crash and the history store is left
unchanged, but no heuristic composite score, structural analysis or ML
probability is produced either: the page reports the (misleading)
invalid-URL error outcome regardless of the URL's validity. -/
theorem model_unavailable_behavior (hash : List Char → List Char)
    (urlValid : Bool) (ext : ExtractResult) (url : List Char) (db : ScanDb)
    (t : Nat) :
    show_url_scanner_page hash none urlValid ext url db t
      = .ok (.invalidUrlError, db) := rfl

/-! ### History-store lemmas -/

theorem find?_append_of_none {α : Type} (l1 l2 : List α) (p : α → Bool)
    (h : l1.find? p = none) : (l1 ++ l2).find? p = l2.find? p := by
  induction l1 with
  | nil => rfl
  | cons a l ih =>
    by_cases hp : p a = true
    · rw [List.find?_cons_of_pos _ hp] at h
      cases h
    · rw [List.find?_cons_of_neg _ hp] at h
      rw [List.cons_append, List.find?_cons_of_neg _ hp]
      exact ih h

theorem add_scan_mem_keys (hash : List Char → List Char) (db : ScanDb)
    (u : List Char) (p : ℚ) (t : Nat) (k : List Char) :
    (k ∈ (add_scan hash db u p t).map Prod.fst
      ↔ k = hash u ∨ k ∈ db.map Prod.fst) := by
  unfold add_scan
  rw [List.map_append, List.mem_append]
  constructor
  · rintro (hk | hk)
    · obtain ⟨e, he, rfl⟩ := List.mem_map.1 hk
      exact Or.inr (List.mem_map.2 ⟨e, (List.mem_filter.1 he).1, rfl⟩)
    · simp only [List.map_cons, List.map_nil, List.mem_singleton] at hk
      exact Or.inl hk
  · intro hk
    by_cases he : k = hash u
    · right
      simp [he]
    · left
      rcases hk with rfl | hk
      · exact absurd rfl he
      · obtain ⟨e, he2, rfl⟩ := List.mem_map.1 hk
        refine List.mem_map.2 ⟨e, List.mem_filter.2 ⟨he2, ?_⟩, rfl⟩
        simpa using he

theorem add_scan_wf {hash : List Char → List Char} {db : ScanDb}
    (hwf : DbWf hash db) (u : List Char) (p : ℚ) (t : Nat) :
    DbWf hash (add_scan hash db u p t) := by
  obtain ⟨hnd, hinv⟩ := hwf
  constructor
  · unfold add_scan
    rw [List.map_append]
    refine List.Nodup.append
      (hnd.sublist ((List.filter_sublist db).map Prod.fst))
      (List.nodup_singleton _) ?_
    intro a ha hb
    simp only [List.map_cons, List.map_nil, List.mem_singleton] at hb
    obtain ⟨e, he, rfl⟩ := List.mem_map.1 ha
    have hf := (List.mem_filter.1 he).2
    rw [hb] at hf
    simp at hf
  · intro e he
    unfold add_scan at he
    rcases List.mem_append.1 he with hf | hs
    · exact hinv e (List.mem_filter.1 hf).1
    · simp only [List.mem_singleton] at hs
      subst hs
      exact ⟨rfl, rfl⟩

theorem runScansFrom_wf (hash : List Char → List Char)
    (scans : List (List Char × ℚ × Nat)) (db : ScanDb) (hwf : DbWf hash db) :
    DbWf hash (scans.foldl (fun d s => add_scan hash d s.1 s.2.1 s.2.2) db) := by
  induction scans generalizing db with
  | nil => exact hwf
  | cons s ss ih => exact ih _ (add_scan_wf hwf _ _ _)

theorem runScans_wf (hash : List Char → List Char)
    (scans : List (List Char × ℚ × Nat)) : DbWf hash (runScans hash scans) :=
  runScansFrom_wf hash scans [] ⟨List.nodup_nil, by simp⟩

theorem runScansFrom_mem_keys (hash : List Char → List Char)
    (scans : List (List Char × ℚ × Nat)) (db : ScanDb) (k : List Char) :
    (k ∈ ((scans.foldl (fun d s => add_scan hash d s.1 s.2.1 s.2.2) db).map
        Prod.fst)
      ↔ k ∈ scans.map (fun s => hash s.1) ∨ k ∈ db.map Prod.fst) := by
  induction scans generalizing db with
  | nil =>
    rw [List.foldl_nil, List.map_nil]
    constructor
    · exact fun h => Or.inr h
    · rintro (h | h)
      · exact absurd h (List.not_mem_nil k)
      · exact h
  | cons s ss ih =>
    rw [List.foldl_cons, ih, add_scan_mem_keys]
    simp only [List.map_cons, List.mem_cons]
    tauto

theorem filter_key_length (db : ScanDb) (k : List Char)
    (h : (db.map Prod.fst).Nodup) :
    (db.filter (fun e => e.1 == k)).length
      = if k ∈ db.map Prod.fst then 1 else 0 := by
  induction db with
  | nil => simp
  | cons e db ih =>
    rw [List.map_cons, List.nodup_cons] at h
    by_cases hk : e.1 = k
    · subst hk
      rw [List.filter_cons_of_pos (by simp), List.length_cons,
        ih h.2, List.map_cons]
      simp [h.1]
    · rw [List.filter_cons_of_neg (by simpa using hk), ih h.2, List.map_cons]
      have hmem : (k ∈ e.1 :: db.map Prod.fst) ↔ k ∈ db.map Prod.fst := by
        rw [List.mem_cons]
        constructor
        · rintro (h1 | h1)
          · exact absurd h1.symm hk
          · exact h1
        · exact Or.inr
      rw [if_congr hmem rfl rfl]

theorem filter_url_eq_filter_key {hash : List Char → List Char} {db : ScanDb}
    (hwf : DbWf hash db) (hinj : Function.Injective hash) (u : List Char) :
    db.filter (fun e => e.2.url == u) = db.filter (fun e => e.1 == hash u) := by
  apply List.filter_congr
  intro e he
  rw [(hwf.2 e he).1]
  by_cases hu : e.2.url = u
  · rw [hu]
    simp
  · have hne : hash e.2.url ≠ hash u := fun hc => hu (hinj hc)
    simp [hu, hne]

theorem find?_filter_commute (db : ScanDb) (k ku : List Char) (hne : k ≠ ku) :
    (db.filter (fun e => !(e.1 == ku))).find? (fun e => e.1 == k)
      = db.find? (fun e => e.1 == k) := by
  induction db with
  | nil => rfl
  | cons e db ih =>
    by_cases hq : e.1 = ku
    · rw [List.filter_cons_of_neg (by simp [hq]),
        List.find?_cons_of_neg _ (by simp [hq, Ne.symm hne]), ih]
    · rw [List.filter_cons_of_pos (by simpa using hq)]
      by_cases hp : e.1 = k
      · rw [List.find?_cons_of_pos _ (by simp [hp]),
          List.find?_cons_of_pos _ (by simp [hp])]
      · rw [List.find?_cons_of_neg _ (by simpa using hp),
          List.find?_cons_of_neg _ (by simpa using hp), ih]

theorem runScans_append_single (hash : List Char → List Char)
    (scans : List (List Char × ℚ × Nat)) (s : List Char × ℚ × Nat) :
    runScans hash (scans ++ [s])
      = add_scan hash (runScans hash scans) s.1 s.2.1 s.2.2 := by
  unfold runScans
  rw [List.foldl_append]
  rfl

theorem find?_add_scan_self (hash : List Char → List Char) (db : ScanDb)
    (u : List Char) (p : ℚ) (t : Nat) :
    (add_scan hash db u p t).find? (fun e => e.1 == hash u)
      = some (hash u, ⟨u, t, p, decide (p ≥ 1/2)⟩) := by
  unfold add_scan
  rw [find?_append_of_none]
  · rw [List.find?_cons_of_pos _ (by simp)]
  · rw [List.find?_eq_none]
    intro e he
    have hf := (List.mem_filter.1 he).2
    simp only [Bool.not_eq_true'] at hf
    simp [hf]

theorem find?_append_eq {α : Type} (l1 l2 : List α) (p : α → Bool) :
    (l1 ++ l2).find? p = ((l1.find? p).orElse (fun _ => l2.find? p)) := by
  induction l1 with
  | nil => rfl
  | cons a l ih =>
    by_cases hp : p a = true
    · rw [List.cons_append, List.find?_cons_of_pos _ hp,
        List.find?_cons_of_pos _ hp]
      rfl
    · rw [List.cons_append, List.find?_cons_of_neg _ hp,
        List.find?_cons_of_neg _ hp, ih]

theorem find?_add_scan_other (hash : List Char → List Char) (db : ScanDb)
    (u : List Char) (p : ℚ) (t : Nat) (k : List Char) (hk : k ≠ hash u) :
    (add_scan hash db u p t).find? (fun e => e.1 == k)
      = db.find? (fun e => e.1 == k) := by
  unfold add_scan
  rw [find?_append_eq, find?_filter_commute db k (hash u) hk,
    List.find?_cons_of_neg _ (by simp [Ne.symm hk]), List.find?_nil]
  cases db.find? (fun e => e.1 == k) <;> rfl

theorem find?_runScans_lastWrite (hash : List Char → List Char)
    (hinj : Function.Injective hash) (scans : List (List Char × ℚ × Nat))
    (u : List Char) :
    ((runScans hash scans).find? (fun e => e.1 == hash u)).map
        (fun e => (e.2.url, e.2.pred))
      = ((scans.filter (fun s => s.1 == u)).getLast?).map
        (fun s => (s.1, s.2.1)) := by
  induction scans using List.reverseRecOn with
  | nil => rfl
  | append_singleton ss s ih =>
    rw [runScans_append_single, List.filter_append]
    by_cases hs : s.1 = u
    · subst hs
      rw [find?_add_scan_self, List.filter_cons_of_pos (by simp),
        List.filter_nil, List.getLast?_concat]
      rfl
    · have hk : hash u ≠ hash s.1 := fun hc => hs (hinj hc).symm
      rw [find?_add_scan_other hash _ s.1 s.2.1 s.2.2 (hash u) hk, ih,
        List.filter_cons_of_neg (by simpa using hs), List.filter_nil,
        List.append_nil]

/-! ### Claim theorem: history store -/

/-- Claim C9: after any sequence of `add_scan` calls starting from an empty
store, with the content hash (the external MD5 hex digest) injective — the
claim's dedup-key assumption — the history store has pairwise-distinct
primary keys and contains exactly one row per distinct scanned URL (zero for
never-scanned URLs); the row reachable under a URL's key holds that URL and
the prediction of its last scan (`INSERT OR REPLACE`: last write wins); and
every row's `is_malicious` field equals `prediction >= 0.5`. -/
theorem history_one_row_per_url (hash : List Char → List Char)
    (scans : List (List Char × ℚ × Nat)) (hinj : Function.Injective hash) :
    ((runScans hash scans).map Prod.fst).Nodup
    ∧ (∀ e ∈ runScans hash scans,
        e.2.is_malicious = decide (e.2.pred ≥ 1/2))
    ∧ (∀ u, ((runScans hash scans).filter (fun e => e.2.url == u)).length
        = if u ∈ scans.map (fun s => s.1) then 1 else 0)
    ∧ (∀ u, ((runScans hash scans).find? (fun e => e.1 == hash u)).map
          (fun e => (e.2.url, e.2.pred))
        = ((scans.filter (fun s => s.1 == u)).getLast?).map
          (fun s => (s.1, s.2.1))) := by
  obtain ⟨hnd, hinv⟩ := runScans_wf hash scans
  refine ⟨hnd, fun e he => (hinv e he).2, fun u => ?_,
    fun u => find?_runScans_lastWrite hash hinj scans u⟩
  have hm : (hash u ∈ (runScans hash scans).map Prod.fst)
      ↔ u ∈ scans.map (fun s => s.1) := by
    unfold runScans
    rw [runScansFrom_mem_keys hash scans [] (hash u)]
    constructor
    · rintro (h | h)
      · obtain ⟨s, hsmem, heq⟩ := List.mem_map.1 h
        exact List.mem_map.2 ⟨s, hsmem, hinj heq⟩
      · exact absurd h (by simp)
    · intro h
      obtain ⟨s, hsmem, heq⟩ := List.mem_map.1 h
      exact Or.inl (List.mem_map.2 ⟨s, hsmem, by rw [heq]⟩)
  rw [filter_url_eq_filter_key (runScans_wf hash scans) hinj u,
    filter_key_length _ _ hnd, if_congr hm rfl rfl]

theorem history_one_row_per_url_witness :
    Function.Injective (fun l : List Char => l)
    ∧ (((runScans (fun l => l)
          [("a".data, 7/10, 0), ("a".data, 2/10, 1)]).map Prod.fst).Nodup
      ∧ (∀ e ∈ runScans (fun l => l)
            [("a".data, 7/10, 0), ("a".data, 2/10, 1)],
          e.2.is_malicious = decide (e.2.pred ≥ 1/2))
      ∧ (∀ u, ((runScans (fun l => l)
            [("a".data, 7/10, 0), ("a".data, 2/10, 1)]).filter
              (fun e => e.2.url == u)).length
          = if u ∈ ([("a".data, 7/10, 0), ("a".data, 2/10, 1)].map
              (fun s => s.1)) then 1 else 0)
      ∧ (∀ u, ((runScans (fun l => l)
            [("a".data, 7/10, 0), ("a".data, 2/10, 1)]).find?
              (fun e => e.1 == u)).map (fun e => (e.2.url, e.2.pred))
          = (([("a".data, 7/10, 0), ("a".data, 2/10, 1)].filter
              (fun s => s.1 == u)).getLast?).map (fun s => (s.1, s.2.1)))) :=
  ⟨fun _ _ h => h,
   history_one_row_per_url (fun l => l)
     [("a".data, 7/10, 0), ("a".data, 2/10, 1)] (fun _ _ h => h)⟩

end URLScanner
